import Mathlib

/-!
Verification of the sales-analytics pipeline of `src/app.py`.

The program is a single-file dashboard: it loads an uploaded dataset (or a
fixed demo dataset when no file is uploaded), validates that the five
required columns are present, derives per-row financial metrics
(`Venta_Total`, `Costo_Total`, `Utilidad`), aggregates them per product and
per month, and fits a one-variable least-squares line over the monthly
revenue series to forecast the next month.

Numeric values are modelled as rationals (the source operates on pandas
numeric columns; all arithmetic involved in the claims is exact), months as
integers.  Missing / not-a-number input to the currency formatter is
modelled as `Option.none`.
-/

/-- One row of the input table: columns `Producto`, `Unidades`, `Precio`,
`Costo`, `Mes` of `src/app.py`. -/
structure SalesRecord where
  producto : String
  unidades : ℚ
  precio : ℚ
  costo : ℚ
  mes : ℤ
deriving DecidableEq

/-- A row after the derived columns are added in tab 2 (lines 112-114):
`Venta_Total = Unidades * Precio`, `Costo_Total = Unidades * Costo`,
`Utilidad = Venta_Total - Costo_Total`. -/
structure EnrichedRecord where
  producto : String
  unidades : ℚ
  precio : ℚ
  costo : ℚ
  mes : ℤ
  venta_total : ℚ
  costo_total : ℚ
  utilidad : ℚ
deriving DecidableEq

/-- The metric derivation of lines 112-114 of `src/app.py`, per row. -/
def enrich (r : SalesRecord) : EnrichedRecord :=
  ⟨r.producto, r.unidades, r.precio, r.costo, r.mes,
   r.unidades * r.precio,
   r.unidades * r.costo,
   r.unidades * r.precio - r.unidades * r.costo⟩

/-- The five source fields of an enriched row (the non-derived columns). -/
def EnrichedRecord.base (e : EnrichedRecord) : SalesRecord :=
  ⟨e.producto, e.unidades, e.precio, e.costo, e.mes⟩

/-- Required columns, `req_cols` of line 39 of `src/app.py`. -/
def reqCols : List String := ["Producto", "Unidades", "Precio", "Costo", "Mes"]

/-- A raw tabular dataset: its column schema plus its rows. -/
structure RawDataset where
  columns : List String
  rows : List SalesRecord
deriving DecidableEq

/-- The fixed demo rows `data_demo` of lines 46-52 of `src/app.py`. -/
def demoRows : List SalesRecord :=
  [⟨"Polera Básica", 50, 12990, 6500, 1⟩,
   ⟨"Jeans Denim", 30, 24990, 12000, 1⟩,
   ⟨"Zapatillas Urbanas", 10, 45990, 25000, 1⟩,
   ⟨"Jockey", 80, 8990, 3500, 1⟩,
   ⟨"Polera Básica", 65, 12990, 6500, 2⟩,
   ⟨"Jeans Denim", 45, 24990, 12000, 2⟩,
   ⟨"Zapatillas Urbanas", 18, 45990, 25000, 2⟩,
   ⟨"Jockey", 95, 8990, 3500, 2⟩]

/-- The demo dataframe built from `data_demo` at line 53 of `src/app.py`. -/
def demoDataset : RawDataset := ⟨reqCols, demoRows⟩

/-- The column validation of lines 38-42 of `src/app.py`:
`if not all(col in df_main.columns for col in req_cols)` the run stops with
an error whose message carries `req_cols` (the full required list); the
dataset itself is left unchanged on success. -/
def validate (ds : RawDataset) : Except (List String) RawDataset :=
  if reqCols.all (fun c => ds.columns.contains c) then Except.ok ds
  else Except.error reqCols

/-- Lines 34-53 of `src/app.py`: `df_main` is the uploaded dataset when a
file is present, otherwise the demo dataset. -/
def df_main (input : Option RawDataset) : RawDataset :=
  match input with
  | some d => d
  | none => demoDataset

/-- One row of `df_prod` (line 117 of `src/app.py`): the per-product sums
of `Venta_Total`, `Utilidad` and `Unidades`. -/
structure ProdAgg where
  producto : String
  venta_total : ℚ
  utilidad : ℚ
  unidades : ℚ
deriving DecidableEq

/-- The columns of `df_prod` produced at line 117 of `src/app.py`:
`groupby('Producto')[['Venta_Total', 'Utilidad', 'Unidades']].sum().reset_index()`. -/
def df_prod_columns : List String :=
  "Producto" :: ["Venta_Total", "Utilidad", "Unidades"]

/-- The per-product aggregation of line 117 of `src/app.py`: group rows by
exact equality of the `Producto` string and sum the three numeric columns.
(pandas additionally sorts the group keys; no claim depends on key order.) -/
def prodAgg (en : List EnrichedRecord) : List ProdAgg :=
  ((en.map EnrichedRecord.producto).dedup).map fun p =>
    ⟨p,
     ((en.filter fun r => r.producto == p).map EnrichedRecord.venta_total).sum,
     ((en.filter fun r => r.producto == p).map EnrichedRecord.utilidad).sum,
     ((en.filter fun r => r.producto == p).map EnrichedRecord.unidades).sum⟩

/-- `df_hist` of line 171 of `src/app.py`:
`groupby('Mes')['Venta_Total'].sum()` — one `(month, revenue)` point per
distinct month, months sorted ascending as pandas does. -/
def monthlyAgg (en : List EnrichedRecord) : List (ℤ × ℚ) :=
  (List.insertionSort (· ≤ ·) ((en.map EnrichedRecord.mes).dedup)).map fun m =>
    (m, ((en.filter fun r => r.mes == m).map EnrichedRecord.venta_total).sum)

/-- The forecast produced by tab 3 of `src/app.py` (lines 176-195):
next month, predicted revenue and the coefficient of determination. -/
structure Forecast where
  next_month : ℤ
  predicted_revenue : ℚ
  confidence : ℚ
deriving DecidableEq

/-- The recoverable failure of tab 3 (line 173-174): fewer than 2 distinct
months, surfaced as a warning by the caller. -/
inductive InsufficientDataError where
  | insufficientData
deriving DecidableEq

/-- Sum of the month values (as rationals) of the regression points. -/
def sx (pts : List (ℤ × ℚ)) : ℚ := (pts.map fun p => ((p.1 : ℚ))).sum

/-- Sum of the revenue values of the regression points. -/
def sy (pts : List (ℤ × ℚ)) : ℚ := (pts.map Prod.snd).sum

/-- Sum of the squared month values of the regression points. -/
def sxx (pts : List (ℤ × ℚ)) : ℚ := (pts.map fun p => ((p.1 : ℚ)) ^ 2).sum

/-- Sum of month times revenue over the regression points. -/
def sxy (pts : List (ℤ × ℚ)) : ℚ := (pts.map fun p => ((p.1 : ℚ)) * p.2).sum

/-- Number of regression points, as a rational. -/
def nQ (pts : List (ℤ × ℚ)) : ℚ := (pts.length : ℚ)

/-- Denominator of the closed-form least-squares olsSlope. -/
def dD (pts : List (ℤ × ℚ)) : ℚ := nQ pts * sxx pts - (sx pts) ^ 2

/-- The least-squares olsSlope fitted by `LinearRegression().fit(X, y)` at
line 181 of `src/app.py` (closed form of the unique two-parameter
ordinary-least-squares fit). -/
def olsSlope (pts : List (ℤ × ℚ)) : ℚ :=
  (nQ pts * sxy pts - sx pts * sy pts) / dD pts

/-- The least-squares olsIntercept fitted at line 181 of `src/app.py`. -/
def olsIntercept (pts : List (ℤ × ℚ)) : ℚ :=
  (sy pts - olsSlope pts * sx pts) / nQ pts

/-- Sum of squared residuals of the line `y = a*x + b` over the points. -/
def sse (pts : List (ℤ × ℚ)) (a b : ℚ) : ℚ :=
  (pts.map fun p => (p.2 - (a * ((p.1 : ℚ)) + b)) ^ 2).sum

/-- Total sum of squares about the mean revenue. -/
def sstot (pts : List (ℤ × ℚ)) : ℚ :=
  (pts.map fun p => (p.2 - sy pts / nQ pts) ^ 2).sum

/-- `df_hist['Mes'].max()` of line 184 of `src/app.py` (the list is
nonempty whenever the projection runs). -/
def maxMonth (pts : List (ℤ × ℚ)) : ℤ :=
  match pts.map Prod.fst with
  | [] => 0
  | m :: ms => ms.foldl max m

/-- Tab 3 of `src/app.py` (lines 173-195): with fewer than 2 points the
projection is abandoned with a warning; otherwise the least-squares line is
fitted, `next_month = max(Mes) + 1`, the prediction is the fitted line
evaluated at `next_month`, and the confidence is
`R² = 1 - SSE/SStot` as computed by `model.score(X, y)`. -/
def project (pts : List (ℤ × ℚ)) : Except InsufficientDataError Forecast :=
  if pts.length < 2 then Except.error InsufficientDataError.insufficientData
  else
    Except.ok
      ⟨maxMonth pts + 1,
       olsSlope pts * (((maxMonth pts + 1 : ℤ) : ℚ)) + olsIntercept pts,
       1 - sse pts (olsSlope pts) (olsIntercept pts) / sstot pts⟩

/-- The full run of `src/app.py` on one input: substitute the demo dataset
when no file is uploaded (lines 34-53), validate the uploaded dataset
(lines 38-42, fatal on failure), derive metrics and aggregates (tab 2) and
attempt the projection (tab 3, optional — its failure only suppresses the
forecast view). -/
def appRun (input : Option RawDataset) :
    Except (List String) (List EnrichedRecord × List ProdAgg × Option Forecast) :=
  match input with
  | none =>
    let en := demoRows.map enrich
    Except.ok (en, prodAgg en, (project (monthlyAgg en)).toOption)
  | some d =>
    match validate d with
    | Except.error e => Except.error e
    | Except.ok v =>
      let en := v.rows.map enrich
      Except.ok (en, prodAgg en, (project (monthlyAgg en)).toOption)

/-- Insert a thousands separator after every third character of a reversed
digit list (the `"\x7b:,.0f\x7d".format(...).replace(",", ".")` of
`fmt_clp`, line 17 of `src/app.py`). -/
def group3 : List Char → List Char
  | a :: b :: c :: d :: rest => a :: b :: c :: '.' :: group3 (d :: rest)
  | l => l

/-- `fmt_clp` of lines 13-17 of `src/app.py`: not-a-number or missing input
renders as the zero string; otherwise the amount is formatted with no
decimals, thousands grouped by a period, prefixed with the peso sign. -/
def fmt_clp : Option ℤ → String
  | none => "$0"
  | some v =>
    "$" ++ (if v < 0 then "-" else "") ++
      String.mk ((group3 ((Nat.toDigits 10 v.natAbs).reverse)).reverse)

/-! ## Helper lemmas -/

/-- Expanding a sum of squared differences against a fixed value. -/
theorem sum_sq_diff (l : List ℚ) (x : ℚ) :
    ((l.map fun y => (x - y) ^ 2).sum) =
      (l.length : ℚ) * x ^ 2 - 2 * x * l.sum + (l.map fun y => y ^ 2).sum := by
  induction l with
  | nil => simp
  | cons z t ih =>
    simp only [List.map_cons, List.sum_cons, List.length_cons, ih]
    push_cast
    ring

/-- Cons step for the scaled variance `n * Σx² - (Σx)²`. -/
theorem varnum_cons (x : ℚ) (l : List ℚ) :
    ((x :: l).length : ℚ) * ((x :: l).map fun y => y ^ 2).sum - (x :: l).sum ^ 2 =
      ((l.length : ℚ) * (l.map fun y => y ^ 2).sum - l.sum ^ 2) +
        (l.map fun y => (x - y) ^ 2).sum := by
  simp only [List.map_cons, List.sum_cons, List.length_cons, sum_sq_diff]
  push_cast
  ring

/-- The scaled variance `n * Σx² - (Σx)²` of any list is nonnegative. -/
theorem varnum_nonneg (l : List ℚ) :
    0 ≤ (l.length : ℚ) * (l.map fun y => y ^ 2).sum - l.sum ^ 2 := by
  induction l with
  | nil => simp
  | cons x t ih =>
    rw [varnum_cons]
    have h2 : 0 ≤ ((t.map fun y => (x - y) ^ 2).sum) :=
      List.sum_nonneg (by
        intro a ha
        obtain ⟨y, _, rfl⟩ := List.mem_map.mp ha
        exact sq_nonneg _)
    linarith

/-- With at least two distinct entries the scaled variance is positive. -/
theorem varnum_pos (l : List ℚ) (hnd : l.Nodup) (hlen : 2 ≤ l.length) :
    0 < (l.length : ℚ) * (l.map fun y => y ^ 2).sum - l.sum ^ 2 := by
  match l, hnd, hlen with
  | x :: y :: t, hnd, _ =>
    rw [varnum_cons]
    have hxy : x ≠ y := by
      intro h
      exact (List.nodup_cons.mp hnd).1 (h ▸ List.mem_cons_self y t)
    have hmem : (x - y) ^ 2 ∈ ((y :: t).map fun z => (x - z) ^ 2) :=
      List.mem_map.mpr ⟨y, List.mem_cons_self y t, rfl⟩
    have hpos : 0 < (x - y) ^ 2 :=
      (sq_nonneg (x - y)).lt_of_ne (Ne.symm (pow_ne_zero 2 (sub_ne_zero.mpr hxy)))
    have hle : (x - y) ^ 2 ≤ ((y :: t).map fun z => (x - z) ^ 2).sum :=
      List.single_le_sum (by
        intro a ha
        obtain ⟨z, _, rfl⟩ := List.mem_map.mp ha
        exact sq_nonneg _) _ hmem
    have := varnum_nonneg (y :: t)
    linarith

/-- The slope denominator is the scaled variance of the month values. -/
theorem dD_eq_varnum (pts : List (ℤ × ℚ)) :
    dD pts =
      ((pts.map fun p => ((p.1 : ℚ))).length : ℚ) *
          ((pts.map fun p => ((p.1 : ℚ))).map fun y => y ^ 2).sum -
        (pts.map fun p => ((p.1 : ℚ))).sum ^ 2 := by
  have h1 : ((pts.map fun p => ((p.1 : ℚ))).map fun y => y ^ 2) =
      pts.map fun p => ((p.1 : ℚ)) ^ 2 := by
    rw [List.map_map]
    rfl
  rw [h1, List.length_map]
  rfl

/-- With at least two points over distinct months the slope denominator is
positive, so the closed-form fit is well defined. -/
theorem dD_pos (pts : List (ℤ × ℚ)) (hnd : (pts.map Prod.fst).Nodup)
    (hlen : 2 ≤ pts.length) : 0 < dD pts := by
  rw [dD_eq_varnum]
  have hinj : Function.Injective (fun z : ℤ => (z : ℚ)) :=
    fun a b h => Int.cast_injective h
  have hnd2 : (pts.map fun p => ((p.1 : ℚ))).Nodup := by
    have : (pts.map fun p => ((p.1 : ℚ))) = (pts.map Prod.fst).map fun z : ℤ => (z : ℚ) := by
      simp [List.map_map, Function.comp]
    rw [this]
    exact hnd.map hinj
  exact varnum_pos _ hnd2 (by simpa using hlen)

/-- The sum of the residuals of the line `y = a*x + b`, in closed form. -/
theorem sum_resid (pts : List (ℤ × ℚ)) (a b : ℚ) :
    ((pts.map fun p => p.2 - (a * ((p.1 : ℚ)) + b)).sum) =
      sy pts - a * sx pts - nQ pts * b := by
  induction pts with
  | nil => simp [sy, sx, nQ]
  | cons p t ih =>
    simp only [List.map_cons, List.sum_cons, ih, sy, sx, nQ, List.length_cons]
    push_cast
    ring

/-- The month-weighted sum of the residuals, in closed form. -/
theorem sum_xresid (pts : List (ℤ × ℚ)) (a b : ℚ) :
    ((pts.map fun p => ((p.1 : ℚ)) * (p.2 - (a * ((p.1 : ℚ)) + b))).sum) =
      sxy pts - a * sxx pts - b * sx pts := by
  induction pts with
  | nil => simp [sxy, sxx, sx]
  | cons p t ih =>
    simp only [List.map_cons, List.sum_cons, ih, sxy, sxx, sx]
    ring

/-- Decomposition of the sum of squared residuals of an arbitrary line
around a reference line `y = s*x + i`. -/
theorem sse_decomp (pts : List (ℤ × ℚ)) (s i a b : ℚ) :
    sse pts a b =
      sse pts s i +
        ((pts.map fun p => ((s - a) * ((p.1 : ℚ)) + (i - b)) ^ 2).sum) +
        2 * (s - a) * ((pts.map fun p => ((p.1 : ℚ)) * (p.2 - (s * ((p.1 : ℚ)) + i))).sum) +
        2 * (i - b) * ((pts.map fun p => p.2 - (s * ((p.1 : ℚ)) + i)).sum) := by
  induction pts with
  | nil => simp [sse]
  | cons p t ih =>
    simp only [sse, List.map_cons, List.sum_cons] at ih ⊢
    nlinarith [ih]

/-- First normal equation: the residuals of the fitted line sum to zero. -/
theorem normal_eq1 (pts : List (ℤ × ℚ)) (hn : nQ pts ≠ 0) :
    sy pts - olsSlope pts * sx pts - nQ pts * olsIntercept pts = 0 := by
  rw [olsIntercept]
  field_simp

/-- Second normal equation: the fitted residuals are orthogonal to the
month values. -/
theorem normal_eq2 (pts : List (ℤ × ℚ)) (hn : nQ pts ≠ 0) (hD : dD pts ≠ 0) :
    sxy pts - olsSlope pts * sxx pts - olsIntercept pts * sx pts = 0 := by
  rw [olsIntercept, olsSlope, dD] at *
  field_simp
  ring

/-- The closed-form coefficients minimize the sum of squared residuals. -/
theorem sse_min (pts : List (ℤ × ℚ)) (hn : nQ pts ≠ 0) (hD : dD pts ≠ 0)
    (a b : ℚ) :
    sse pts (olsSlope pts) (olsIntercept pts) ≤ sse pts a b := by
  have hdec := sse_decomp pts (olsSlope pts) (olsIntercept pts) a b
  rw [sum_resid, sum_xresid, normal_eq1 pts hn, normal_eq2 pts hn hD] at hdec
  have hsq : 0 ≤ ((pts.map fun p =>
      ((olsSlope pts - a) * ((p.1 : ℚ)) + (olsIntercept pts - b)) ^ 2).sum) :=
    List.sum_nonneg (by
      intro x hx
      obtain ⟨p, _, rfl⟩ := List.mem_map.mp hx
      exact sq_nonneg _)
  linarith

/-- A left fold by `max` never drops below its initial value. -/
theorem le_foldl_max (l : List ℤ) : ∀ a : ℤ, a ≤ l.foldl max a := by
  induction l with
  | nil => intro a; simp
  | cons x t ih =>
    intro a
    calc a ≤ max a x := le_max_left a x
    _ ≤ t.foldl max (max a x) := ih (max a x)
    _ = (x :: t).foldl max a := rfl

/-- A left fold by `max` bounds every element of the list. -/
theorem mem_le_foldl_max (l : List ℤ) : ∀ (a y : ℤ), y ∈ l → y ≤ l.foldl max a := by
  induction l with
  | nil => intro a y h; simp at h
  | cons x t ih =>
    intro a y h
    rcases List.mem_cons.mp h with rfl | h2
    · calc y ≤ max a y := le_max_right a y
      _ ≤ t.foldl max (max a y) := le_foldl_max t (max a y)
      _ = (y :: t).foldl max a := rfl
    · exact ih (max a x) y h2

/-- A left fold by `max` yields the initial value or a list element. -/
theorem foldl_max_mem (l : List ℤ) : ∀ a : ℤ, l.foldl max a ∈ a :: l := by
  induction l with
  | nil => intro a; simp
  | cons x t ih =>
    intro a
    have h := ih (max a x)
    rcases List.mem_cons.mp h with h1 | h2
    · rw [List.foldl_cons, h1]
      rcases max_choice a x with h3 | h3 <;> rw [h3]
      · exact List.mem_cons_self a (x :: t)
      · exact List.mem_cons_of_mem a (List.mem_cons_self x t)
    · exact List.mem_cons_of_mem a (List.mem_cons_of_mem x h2)

/-- On a nonempty point list, `maxMonth` is one of the months. -/
theorem maxMonth_mem (pts : List (ℤ × ℚ)) (h : pts ≠ []) :
    maxMonth pts ∈ pts.map Prod.fst := by
  match pts, h with
  | p :: t, _ =>
    have : maxMonth (p :: t) = (t.map Prod.fst).foldl max p.1 := rfl
    rw [this, List.map_cons]
    exact foldl_max_mem (t.map Prod.fst) p.1

/-- `maxMonth` bounds every month of the point list. -/
theorem le_maxMonth (pts : List (ℤ × ℚ)) (m : ℤ) (h : m ∈ pts.map Prod.fst) :
    m ≤ maxMonth pts := by
  match pts with
  | [] => simp at h
  | p :: t =>
    have he : maxMonth (p :: t) = (t.map Prod.fst).foldl max p.1 := rfl
    rw [List.map_cons] at h
    rcases List.mem_cons.mp h with h1 | h2
    · rw [he, h1]; exact le_foldl_max (t.map Prod.fst) p.1
    · rw [he]; exact mem_le_foldl_max (t.map Prod.fst) p.1 m h2

/-- Pointwise addition distributes over a summed map. -/
theorem sum_map_add_q (keys : List String) (f g : String → ℚ) :
    ((keys.map fun p => f p + g p).sum) = (keys.map f).sum + (keys.map g).sum := by
  induction keys with
  | nil => simp
  | cons k t ih =>
    simp only [List.map_cons, List.sum_cons, ih]
    ring

/-- Summing an indicator over keys that never match gives zero. -/
theorem sum_ite_of_not_mem (keys : List String) (x : String) (v : ℚ)
    (h : x ∉ keys) : ((keys.map fun p => if x = p then v else 0).sum) = 0 := by
  induction keys with
  | nil => simp
  | cons k t ih =>
    have hxk : x ≠ k := fun he => h (he ▸ List.mem_cons_self k t)
    simp only [List.map_cons, List.sum_cons, if_neg hxk,
      ih (fun ht => h (List.mem_cons_of_mem k ht)), add_zero]

/-- Summing an indicator over a duplicate-free key list containing the
matching key gives the indicated value once. -/
theorem sum_ite_of_nodup (keys : List String) (x : String) (v : ℚ)
    (hnd : keys.Nodup) (hx : x ∈ keys) :
    ((keys.map fun p => if x = p then v else 0).sum) = v := by
  induction keys with
  | nil => simp at hx
  | cons k t ih =>
    rcases List.mem_cons.mp hx with rfl | h2
    · simp only [List.map_cons, List.sum_cons, if_pos rfl, if_true]
      rw [sum_ite_of_not_mem t x v (List.nodup_cons.mp hnd).1, add_zero]
    · have hxk : x ≠ k := fun he => (List.nodup_cons.mp hnd).1 (he ▸ h2)
      simp only [List.map_cons, List.sum_cons, if_neg hxk]
      rw [ih (List.nodup_cons.mp hnd).2 h2, zero_add]

/-- Grouping by a duplicate-free key list covering every row partitions the
rows: the group sums add up to the total sum. -/
theorem group_sum_total (keys : List String) (en : List EnrichedRecord)
    (f : EnrichedRecord → ℚ) (hnd : keys.Nodup)
    (hcov : ∀ r ∈ en, r.producto ∈ keys) :
    ((keys.map fun p => ((en.filter fun r => r.producto == p).map f).sum).sum) =
      (en.map f).sum := by
  induction en with
  | nil => simp
  | cons r t ih =>
    have hpt : ∀ p : String,
        (((r :: t).filter fun x => x.producto == p).map f).sum =
          (if r.producto = p then f r else 0) +
            ((t.filter fun x => x.producto == p).map f).sum := by
      intro p
      rw [List.filter_cons]
      by_cases h : r.producto = p
      · simp [h]
      · simp [h]
    simp only [hpt]
    rw [sum_map_add_q, sum_ite_of_nodup keys r.producto (f r) hnd
        (hcov r (List.mem_cons_self r t)),
      ih (fun x hx => hcov x (List.mem_cons_of_mem r hx)),
      List.map_cons, List.sum_cons]

/-! ## Claim theorems -/

/-- Claim C1: for every monthly-aggregate sequence with at least 2 distinct
months (monthly aggregates are keyed by month, so the months are
duplicate-free), `project` succeeds and returns
`next_month = max(month) + 1` (the true maximum of the months) and
`predicted_revenue = slope * next_month + intercept`, where the slope and
intercept are the ordinary-least-squares coefficients: they minimize the
sum of squared residuals over all candidate lines. -/
theorem project_fits_least_squares (pts : List (ℤ × ℚ))
    (hnd : (pts.map Prod.fst).Nodup) (hlen : 2 ≤ pts.length) :
    ∃ r : Forecast, project pts = Except.ok r ∧
      r.next_month = maxMonth pts + 1 ∧
      maxMonth pts ∈ pts.map Prod.fst ∧
      (∀ m ∈ pts.map Prod.fst, m ≤ maxMonth pts) ∧
      r.predicted_revenue =
        olsSlope pts * (((maxMonth pts + 1 : ℤ) : ℚ)) + olsIntercept pts ∧
      ∀ a b : ℚ, sse pts (olsSlope pts) (olsIntercept pts) ≤ sse pts a b := by
  have hne : pts ≠ [] := by
    intro h
    rw [h] at hlen
    simp at hlen
  have hn : nQ pts ≠ 0 := by
    have : (0 : ℚ) < (pts.length : ℚ) := by
      exact_mod_cast Nat.lt_of_lt_of_le (by norm_num) hlen
    exact ne_of_gt this
  have hD : dD pts ≠ 0 := ne_of_gt (dD_pos pts hnd hlen)
  refine ⟨⟨maxMonth pts + 1,
      olsSlope pts * (((maxMonth pts + 1 : ℤ) : ℚ)) + olsIntercept pts,
      1 - sse pts (olsSlope pts) (olsIntercept pts) / sstot pts⟩,
    ?_, rfl, maxMonth_mem pts hne, fun m hm => le_maxMonth pts m hm, rfl,
    fun a b => sse_min pts hn hD a b⟩
  unfold project
  rw [if_neg (Nat.not_lt.mpr hlen)]

/-- Witness for claim C1: the hypotheses and conclusion of
`project_fits_least_squares` at the two points `(1, 1000), (2, 2000)`. -/
theorem project_fits_least_squares_witness :
    ([((1 : ℤ), (1000 : ℚ)), (2, 2000)].map Prod.fst).Nodup ∧
      2 ≤ [((1 : ℤ), (1000 : ℚ)), (2, 2000)].length ∧
      ∃ r : Forecast,
        project [((1 : ℤ), (1000 : ℚ)), (2, 2000)] = Except.ok r ∧
        r.next_month = maxMonth [((1 : ℤ), (1000 : ℚ)), (2, 2000)] + 1 ∧
        maxMonth [((1 : ℤ), (1000 : ℚ)), (2, 2000)] ∈
          [((1 : ℤ), (1000 : ℚ)), (2, 2000)].map Prod.fst ∧
        (∀ m ∈ [((1 : ℤ), (1000 : ℚ)), (2, 2000)].map Prod.fst,
          m ≤ maxMonth [((1 : ℤ), (1000 : ℚ)), (2, 2000)]) ∧
        r.predicted_revenue =
          olsSlope [((1 : ℤ), (1000 : ℚ)), (2, 2000)] *
              (((maxMonth [((1 : ℤ), (1000 : ℚ)), (2, 2000)] + 1 : ℤ) : ℚ)) +
            olsIntercept [((1 : ℤ), (1000 : ℚ)), (2, 2000)] ∧
        ∀ a b : ℚ,
          sse [((1 : ℤ), (1000 : ℚ)), (2, 2000)]
              (olsSlope [((1 : ℤ), (1000 : ℚ)), (2, 2000)])
              (olsIntercept [((1 : ℤ), (1000 : ℚ)), (2, 2000)]) ≤
            sse [((1 : ℤ), (1000 : ℚ)), (2, 2000)] a b :=
  ⟨by decide, by decide,
    project_fits_least_squares [((1 : ℤ), (1000 : ℚ)), (2, 2000)] (by decide) (by decide)⟩

/-- Claim C2 (amended): the per-product aggregation groups records by exact
product-string equality and sums `gross_revenue` (`Venta_Total`), `profit`
(`Utilidad`) and `units` (`Unidades`) per product; no `margin_pct` field is
computed or included in the aggregate. -/
theorem prodAgg_exact_sums (en : List EnrichedRecord) (a : ProdAgg)
    (ha : a ∈ prodAgg en) :
    a.venta_total =
        ((en.filter fun r => r.producto == a.producto).map EnrichedRecord.venta_total).sum ∧
      a.utilidad =
        ((en.filter fun r => r.producto == a.producto).map EnrichedRecord.utilidad).sum ∧
      a.unidades =
        ((en.filter fun r => r.producto == a.producto).map EnrichedRecord.unidades).sum ∧
      "margin_pct" ∉ df_prod_columns := by
  obtain ⟨p, hp, rfl⟩ := List.mem_map.mp ha
  exact ⟨rfl, rfl, rfl, by decide⟩

/-- Witness for claim C2: `prodAgg_exact_sums` applied to a one-row dataset
and the aggregate row it produces. -/
theorem prodAgg_exact_sums_witness :
    ((⟨"a", 10, 6, 1⟩ : ProdAgg) ∈
        prodAgg [⟨"a", 1, 1, 1, 1, 10, 4, 6⟩]) ∧
      ((⟨"a", 10, 6, 1⟩ : ProdAgg).venta_total =
          (([⟨"a", 1, 1, 1, 1, 10, 4, 6⟩].filter
              fun r => r.producto == (⟨"a", 10, 6, 1⟩ : ProdAgg).producto).map
            EnrichedRecord.venta_total).sum ∧
        (⟨"a", 10, 6, 1⟩ : ProdAgg).utilidad =
          (([⟨"a", 1, 1, 1, 1, 10, 4, 6⟩].filter
              fun r => r.producto == (⟨"a", 10, 6, 1⟩ : ProdAgg).producto).map
            EnrichedRecord.utilidad).sum ∧
        (⟨"a", 10, 6, 1⟩ : ProdAgg).unidades =
          (([⟨"a", 1, 1, 1, 1, 10, 4, 6⟩].filter
              fun r => r.producto == (⟨"a", 10, 6, 1⟩ : ProdAgg).producto).map
            EnrichedRecord.unidades).sum ∧
        "margin_pct" ∉ df_prod_columns) :=
  ⟨by simp [prodAgg], prodAgg_exact_sums [⟨"a", 1, 1, 1, 1, 10, 4, 6⟩] ⟨"a", 10, 6, 1⟩
    (by simp [prodAgg])⟩

/-- Counterexample for claim C2 as stated: the per-product aggregate of
line 117 of `src/app.py` carries exactly the columns `Producto`,
`Venta_Total`, `Utilidad`, `Unidades`; it includes no `margin_pct` field. -/
theorem prodAgg_no_margin_counterexample :
    df_prod_columns = ["Producto", "Venta_Total", "Utilidad", "Unidades"] ∧
      ("margin_pct" ∈ df_prod_columns) = False :=
  ⟨rfl, eq_false (by decide)⟩

/-- Claim C3: `project` fails (with the insufficient-data warning) exactly
when fewer than 2 distinct months are present in the monthly aggregates —
so with at least 2 distinct months it cannot fail — and the failure is
non-fatal: on a validated dataset the full run still succeeds, producing
the enriched rows and product aggregates, with the forecast merely
optional. -/
theorem project_insufficient_iff (pts : List (ℤ × ℚ)) (rows : List SalesRecord)
    (hnd : (pts.map Prod.fst).Nodup) :
    ((∃ e, project pts = Except.error e) ↔ ((pts.map Prod.fst).dedup).length < 2) ∧
      appRun (some ⟨reqCols, rows⟩) =
        Except.ok (rows.map enrich, prodAgg (rows.map enrich),
          (project (monthlyAgg (rows.map enrich))).toOption) := by
  constructor
  · have hlen_eq : ((pts.map Prod.fst).dedup).length = pts.length := by
      rw [hnd.dedup, List.length_map]
    rw [hlen_eq]
    unfold project
    by_cases h : pts.length < 2
    · simp only [h, if_true, iff_true]
      exact ⟨InsufficientDataError.insufficientData, trivial⟩
    · simp [h]
  · rfl

/-- Witness for claim C3: `project_insufficient_iff` at a single-month
aggregate list (which does fail) and the demo rows (whose run succeeds). -/
theorem project_insufficient_iff_witness :
    (([((1 : ℤ), (5 : ℚ))].map Prod.fst).Nodup) ∧
      ((∃ e, project [((1 : ℤ), (5 : ℚ))] = Except.error e) ↔
        (([((1 : ℤ), (5 : ℚ))].map Prod.fst).dedup).length < 2) ∧
      appRun (some ⟨reqCols, demoRows⟩) =
        Except.ok (demoRows.map enrich, prodAgg (demoRows.map enrich),
          (project (monthlyAgg (demoRows.map enrich))).toOption) :=
  ⟨by decide, project_insufficient_iff [((1 : ℤ), (5 : ℚ))] demoRows (by decide)⟩

/-- Claim C4 (amended): validation fails exactly when some required column
(`Producto`, `Unidades`, `Precio`, `Costo`, `Mes`) is absent from the
schema, it fails for no other reason, and on success it returns the
dataset unchanged; on failure, however, the error carries the full
required-column list `req_cols`, not the set of missing column names. -/
theorem validate_spec (ds : RawDataset) :
    ((∃ e, validate ds = Except.error e) ↔ ∃ c ∈ reqCols, c ∉ ds.columns) ∧
      (∀ e, validate ds = Except.error e → e = reqCols) ∧
      ((∀ c ∈ reqCols, c ∈ ds.columns) → validate ds = Except.ok ds) := by
  unfold validate
  by_cases h : reqCols.all (fun c => ds.columns.contains c) = true
  · have hmem : ∀ c ∈ reqCols, c ∈ ds.columns := by
      rw [List.all_eq_true] at h
      exact fun c hc => List.elem_iff.mp (h c hc)
    rw [if_pos h]
    refine ⟨?_, ?_, fun _ => rfl⟩
    · constructor
      · rintro ⟨e, he⟩
        cases he
      · rintro ⟨c, hc, habs⟩
        exact absurd (hmem c hc) habs
    · intro e he
      cases he
  · have h2 : ∃ c ∈ reqCols, c ∉ ds.columns := by
      rw [List.all_eq_true] at h
      push_neg at h
      obtain ⟨c, hc, hnc⟩ := h
      exact ⟨c, hc, fun hmem => hnc (List.elem_iff.mpr hmem)⟩
    rw [if_neg h]
    exact ⟨⟨fun _ => h2, fun _ => ⟨reqCols, rfl⟩⟩, fun e he => by cases he; rfl,
      fun hall => absurd h2 (by
        push_neg
        intro c hc
        exact hall c hc)⟩

/-- Witness for claim C4: `validate_spec` at the demo dataset. -/
theorem validate_spec_witness :
    ((∃ e, validate demoDataset = Except.error e) ↔
        ∃ c ∈ reqCols, c ∉ demoDataset.columns) ∧
      (∀ e, validate demoDataset = Except.error e → e = reqCols) ∧
      ((∀ c ∈ reqCols, c ∈ demoDataset.columns) →
        validate demoDataset = Except.ok demoDataset) :=
  validate_spec demoDataset

/-- A dataset whose schema lacks exactly the `Costo` column. -/
def noCostoDataset : RawDataset := ⟨["Producto", "Unidades", "Precio", "Mes"], []⟩

/-- Counterexample for claim C4 as stated: on a dataset lacking only the
`Costo` column the error payload is the full required-column list, not the
missing set `["Costo"]` (line 41 of `src/app.py` interpolates `req_cols`
into the message, not the missing columns). -/
theorem validate_payload_counterexample :
    validate noCostoDataset = Except.error reqCols ∧ (reqCols = ["Costo"]) = False :=
  ⟨rfl, eq_false (by decide)⟩

/-- Claim C5: `project` on exactly the two monthly points `(1, 1000)` and
`(2, 2000)` yields `next_month = 3`, `predicted_revenue = 3000` and
`confidence` (the coefficient of determination) `= 1`. -/
theorem project_on_two_points :
    project [((1 : ℤ), (1000 : ℚ)), (2, 2000)] = Except.ok ⟨3, 3000, 1⟩ := by
  simp only [project, olsSlope, olsIntercept, sse, sstot, sx, sy, sxy, sxx, nQ, dD, maxMonth]
  norm_num

/-- Claim C6: `fmt_clp` is a pure total function with `fmt_clp(1500)`
rendering as the string for 1.500 pesos, `fmt_clp(0)` as the zero string,
a not-a-number or missing amount also as the zero string, and thousands
grouped by a period with no decimal marker (shown additionally on a
seven-digit amount). -/
theorem fmt_clp_outputs :
    fmt_clp (some 1500) = "$1.500" ∧ fmt_clp (some 0) = "$0" ∧
      fmt_clp none = "$0" ∧ fmt_clp (some 1234567) = "$1.234.567" :=
  ⟨by decide, by decide, by decide, by decide⟩

/-- Claim C7 (amended): when the input is absent the pipeline substitutes
the fixed demo dataset, which has exactly 8 rows and exactly 2 distinct
months; an uploaded empty dataset, by contrast, is not substituted. -/
theorem demo_on_absent_input :
    df_main none = demoDataset ∧ demoDataset.rows.length = 8 ∧
      ((demoDataset.rows.map SalesRecord.mes).dedup).length = 2 :=
  ⟨rfl, rfl, by decide⟩

/-- An uploaded dataset with the required columns but no rows. -/
def emptyUpload : RawDataset := ⟨reqCols, []⟩

/-- Counterexample for claim C7 as stated: an uploaded empty dataset is not
replaced by the demo data — `df_main` keeps it (the source checks only
`uploaded_file is not None`, line 34 of `src/app.py`), and the run produces
empty outputs rather than the 8-row demo outputs. -/
theorem empty_upload_counterexample :
    (df_main (some emptyUpload) = demoDataset) = False ∧
      appRun (some emptyUpload) = Except.ok ([], [], none) :=
  ⟨eq_false (by decide), rfl⟩

/-- Claim C8: for every dataset with at least one row, the derived per-row
metrics satisfy `sum(profit) = sum(gross_revenue) - sum(total_cost)`
exactly. -/
theorem profit_sum_identity (rows : List SalesRecord) (h : rows ≠ []) :
    (((rows.map enrich).map EnrichedRecord.utilidad).sum) =
      (((rows.map enrich).map EnrichedRecord.venta_total).sum) -
        (((rows.map enrich).map EnrichedRecord.costo_total).sum) := by
  clear h
  induction rows with
  | nil => simp
  | cons r t ih =>
    simp only [List.map_cons, List.sum_cons, enrich] at ih ⊢
    linarith

/-- Witness for claim C8: `profit_sum_identity` at the demo rows. -/
theorem profit_sum_identity_witness :
    demoRows ≠ [] ∧
      (((demoRows.map enrich).map EnrichedRecord.utilidad).sum) =
        (((demoRows.map enrich).map EnrichedRecord.venta_total).sum) -
          (((demoRows.map enrich).map EnrichedRecord.costo_total).sum) :=
  ⟨by decide, profit_sum_identity demoRows (by decide)⟩

/-- Claim C9: grouping by product is a partition — the sum of
`gross_revenue` over all product aggregates equals the sum of
`gross_revenue` over all input rows. -/
theorem prodAgg_is_partition (en : List EnrichedRecord) :
    (((prodAgg en).map ProdAgg.venta_total).sum) =
      ((en.map EnrichedRecord.venta_total).sum) := by
  unfold prodAgg
  rw [List.map_map]
  exact group_sum_total ((en.map EnrichedRecord.producto).dedup) en
    EnrichedRecord.venta_total (List.nodup_dedup _)
    (fun r hr => List.mem_dedup.mpr (List.mem_map_of_mem EnrichedRecord.producto hr))

/-- Claim C10: metric derivation only adds the three derived fields — for
every record the five source fields are unchanged in the enriched output
(projecting the enriched rows back onto the source fields recovers the
input list, in the same order), and the number of records is preserved. -/
theorem enrich_preserves_base (rows : List SalesRecord) :
    ((rows.map enrich).map EnrichedRecord.base) = rows ∧
      (rows.map enrich).length = rows.length := by
  constructor
  · induction rows with
    | nil => rfl
    | cons r t ih =>
      simp only [List.map_cons, List.cons.injEq]
      exact ⟨rfl, ih⟩
  · rw [List.length_map]
